import Mathlib

/-!
Shallow embedding of the mass-spring physics engine (`PhysicsEngine` class).

Numbers are modelled as exact rationals.  `Math.sqrt` is not algebraic over
ℚ, so every operation that computes a Euclidean norm takes an abstract
square-root function `sq : ℚ → ℚ` as a parameter; theorems that depend on
the numerical value of a square root carry an explicit correctness
hypothesis for `sq` at the point where it is used.  JavaScript object
references held by springs and constraints are modelled as indices into the
engine's mass list.
-/

namespace Phys

/-- A 3-component vector of rationals, mirroring the `{x, y, z}` records. -/
structure Vec3 where
  x : ℚ
  y : ℚ
  z : ℚ
deriving DecidableEq

/-- Componentwise vector sum. -/
def vadd (a b : Vec3) : Vec3 := ⟨a.x + b.x, a.y + b.y, a.z + b.z⟩

/-- Componentwise vector difference. -/
def vsub (a b : Vec3) : Vec3 := ⟨a.x - b.x, a.y - b.y, a.z - b.z⟩

/-- Scalar multiple of a vector. -/
def vscale (k : ℚ) (a : Vec3) : Vec3 := ⟨k * a.x, k * a.y, k * a.z⟩

/-- Squared Euclidean norm `x*x + y*y + z*z`. -/
def normSq (a : Vec3) : ℚ := a.x * a.x + a.y * a.y + a.z * a.z

/-- One vertex of the input topology (`meshData.vertices` entry). -/
structure Vertex where
  id : String
  x : ℚ
  y : ℚ
  z : ℚ
  group : String
  type : String
  weight : ℚ
deriving DecidableEq

/-- The input topology consumed by `parsePhysicsData`.  The optional chains
`physics?.springs?.muscleTension` and
`metadata?.biomechanical?.jointConstraints` are flattened into an
`Option ℚ` and a `Bool` (truthiness of the latter field). -/
structure MeshData where
  vertices : List Vertex
  edges : List (String × String)
  muscleTension : Option ℚ
  jointConstraints : Bool
deriving DecidableEq

/-- A mass point, mirroring the object built in `parsePhysicsData`. -/
structure Mass where
  id : String
  position : Vec3
  originalPosition : Vec3
  velocity : Vec3
  force : Vec3
  mass : ℚ
  fixed : Bool
  group : String
  type : String
deriving DecidableEq

/-- A spring; `i1`/`i2` are indices of the two referenced masses. -/
structure Spring where
  i1 : ℕ
  i2 : ℕ
  restLength : ℚ
  stiffness : ℚ
  damping : ℚ
deriving DecidableEq

/-- A constraint object: the `type` field of the source objects becomes a
tagged variant.  `distance` carries the two mass indices, the target
distance and the stiffness; `collision` carries the mass index, the ground
level and the restitution. -/
inductive PConstraint where
  | distance (i1 i2 : ℕ) (dist : ℚ) (stiffness : ℚ)
  | collision (i : ℕ) (groundY : ℚ) (restit : ℚ)
deriving DecidableEq

/-- Tests the `constraint.type === 'distance'` tag. -/
def isDistanceC : PConstraint → Bool
  | .distance _ _ _ _ => true
  | .collision _ _ _ => false

/-- The whole engine state (`this` of the `PhysicsEngine` class). -/
structure Engine where
  gravity : ℚ
  damping : ℚ
  stiffness : ℚ
  enabled : Bool
  timeStep : ℚ
  masses : List Mass
  springs : List Spring
  constraints : List PConstraint
  originalPositions : List (String × Vec3)
deriving DecidableEq

/-- The constructor state: gravity 9.8, damping 0.95, stiffness 0.15,
disabled, timeStep 1/60, empty collections. -/
def initEngine : Engine :=
  { gravity := 49/5, damping := 19/20, stiffness := 3/20, enabled := false,
    timeStep := 1/60, masses := [], springs := [], constraints := [],
    originalPositions := [] }

/-- Replace the element at index `i` by `f` of it; out-of-range indices
leave the list unchanged (mirrors mutating one referenced object). -/
def modifyMass : List Mass → ℕ → (Mass → Mass) → List Mass
  | [], _, _ => []
  | m :: ms, 0, f => f m :: ms
  | m :: ms, n + 1, f => m :: modifyMass ms n f

/-- `Array.prototype.find` by id, also returning the index of the first
mass whose `id` matches (the JS reference is the index). -/
def findMassAux : List Mass → String → ℕ → Option (ℕ × Mass)
  | [], _, _ => none
  | m :: ms, key, n => if m.id = key then some (n, m) else findMassAux ms key (n + 1)

/-- First mass (with its index) whose id equals `key`. -/
def findMass (ms : List Mass) (key : String) : Option (ℕ × Mass) :=
  findMassAux ms key 0

/-- `Map.prototype.get` on the association list modelling
`originalPositions`. -/
def lookupOrig : List (String × Vec3) → String → Option Vec3
  | [], _ => none
  | p :: ps, key => if p.1 = key then some p.2 else lookupOrig ps key

/-- `Map.prototype.set`: the new binding shadows any previous one. -/
def mapSet (l : List (String × Vec3)) (key : String) (v : Vec3) : List (String × Vec3) :=
  (key, v) :: l.filter (fun p => !(p.1 == key))

/-- `String.prototype.includes`: substring test. -/
def strIncludes (s pat : String) : Bool :=
  (List.range (s.length + 1)).any
    (fun i => (s.toList.drop i).take pat.toList.length == pat.toList)

/-- The mass object created from one vertex: `mass = weight * 10`,
`fixed = (type === 'joint') || group.includes('head')`. -/
def mkMass (v : Vertex) : Mass :=
  { id := v.id, position := ⟨v.x, v.y, v.z⟩, originalPosition := ⟨v.x, v.y, v.z⟩,
    velocity := ⟨0, 0, 0⟩, force := ⟨0, 0, 0⟩, mass := v.weight * 10,
    fixed := (v.type = "joint") || strIncludes v.group "head",
    group := v.group, type := v.type }

/-- Spring creation from the edge list: edges whose endpoints are not both
found are skipped; `restLength` is the (abstract) square root of the
squared distance between the endpoint positions at construction time. -/
def mkSprings (sq : ℚ → ℚ) (masses : List Mass) (springStiff : ℚ) :
    List (String × String) → List Spring
  | [] => []
  | ed :: rest =>
    (match findMass masses ed.1, findMass masses ed.2 with
     | some (j1, m1), some (j2, m2) =>
       let dx := m2.position.x - m1.position.x
       let dy := m2.position.y - m1.position.y
       let dz := m2.position.z - m1.position.z
       [{ i1 := j1, i2 := j2, restLength := sq (dx * dx + dy * dy + dz * dz),
          stiffness := springStiff, damping := 1/10 }]
     | _, _ => []) ++ mkSprings sq masses springStiff rest

/-- The fixed anatomical distance-constraint table of
`addJointConstraints`. -/
def jointTable : List (String × String × ℚ) :=
  [("head_top", "neck_top_center", 15),
   ("head_chin", "neck_top_front", 8),
   ("shoulder_left_top", "clavicle_left", 12),
   ("shoulder_right_top", "clavicle_right", 12),
   ("hip_left", "waist_left", 10),
   ("hip_right", "waist_right", 10),
   ("neck_base_center", "spine_center", 30),
   ("spine_center", "waist_center_front", 15)]

/-- `addJointConstraints`: pairs with a missing endpoint are skipped; all
installed constraints have stiffness 0.9. -/
def mkJointCs (masses : List Mass) : List (String × String × ℚ) → List PConstraint
  | [] => []
  | jc :: rest =>
    (match findMass masses jc.1, findMass masses jc.2.1 with
     | some (j1, _), some (j2, _) => [PConstraint.distance j1 j2 jc.2.2 (9/10)]
     | _, _ => []) ++ mkJointCs masses rest

/-- `addCollisionConstraints`: for each non-fixed mass already below
`groundY = -50`, a collision-tagged constraint object is pushed.  `n` is
the index of the head of the remaining list. -/
def mkCollisionCs : List Mass → ℕ → List PConstraint
  | [], _ => []
  | m :: ms, n =>
    (if m.fixed = false ∧ m.position.y < -50
     then [PConstraint.collision n (-50) (7/10)] else []) ++ mkCollisionCs ms (n + 1)

/-- `parsePhysicsData`: rebuilds masses, originalPositions, springs and
constraints from the topology; configuration fields are untouched.  The
spring stiffness scale is `meshData.physics?.springs?.muscleTension || 0.3`
— the default triggers on the falsy value 0 as well as on absence. -/
def parsePhysicsData (sq : ℚ → ℚ) (md : MeshData) (e : Engine) : Engine :=
  let masses := md.vertices.map mkMass
  let origs := md.vertices.foldl (fun acc v => mapSet acc v.id ⟨v.x, v.y, v.z⟩) []
  let tension : ℚ :=
    match md.muscleTension with
    | some t => if t = 0 then 3/10 else t
    | none => 3/10
  let springs := mkSprings sq masses (tension * e.stiffness) md.edges
  let jcs := if md.jointConstraints then mkJointCs masses jointTable else []
  { e with masses := masses, springs := springs,
           constraints := jcs ++ mkCollisionCs masses 0,
           originalPositions := origs }

/-- Gravity application to one mass: `force.y -= mass * gravity` unless
fixed. -/
def gravMass (g : ℚ) (m : Mass) : Mass :=
  if m.fixed then m
  else { m with force := { m.force with y := m.force.y - m.mass * g } }

/-- Hooke spring force of one spring, added to its two endpoints (skipped
when the computed distance is 0); fixed endpoints receive no force. -/
def applySpring (sq : ℚ → ℚ) (ms : List Mass) (s : Spring) : List Mass :=
  match ms.get? s.i1, ms.get? s.i2 with
  | some m1, some m2 =>
    let dx := m2.position.x - m1.position.x
    let dy := m2.position.y - m1.position.y
    let dz := m2.position.z - m1.position.z
    let dist := sq (dx * dx + dy * dy + dz * dz)
    if dist = 0 then ms
    else
      let fmag := s.stiffness * (dist - s.restLength)
      let dirX := dx / dist
      let dirY := dy / dist
      let dirZ := dz / dist
      let ms1 :=
        if m1.fixed then ms
        else modifyMass ms s.i1 (fun m =>
          { m with force := ⟨m.force.x + fmag * dirX, m.force.y + fmag * dirY,
                             m.force.z + fmag * dirZ⟩ })
      if m2.fixed then ms1
      else modifyMass ms1 s.i2 (fun m =>
        { m with force := ⟨m.force.x - fmag * dirX, m.force.y - fmag * dirY,
                           m.force.z - fmag * dirZ⟩ })
  | _, _ => ms

/-- `applyForces`: gravity on every non-fixed mass, then every spring. -/
def applyForces (sq : ℚ → ℚ) (e : Engine) : Engine :=
  { e with masses := e.springs.foldl (applySpring sq) (e.masses.map (gravMass e.gravity)) }

/-- Semi-implicit Euler update of one mass: `v += (F/m)*dt`, `v *= damping`,
`p += v*dt`; fixed masses are skipped entirely. -/
def integrateMass (damp dt : ℚ) (m : Mass) : Mass :=
  if m.fixed then m
  else
    let vx := (m.velocity.x + m.force.x / m.mass * dt) * damp
    let vy := (m.velocity.y + m.force.y / m.mass * dt) * damp
    let vz := (m.velocity.z + m.force.z / m.mass * dt) * damp
    { m with velocity := ⟨vx, vy, vz⟩,
             position := ⟨m.position.x + vx * dt, m.position.y + vy * dt,
                          m.position.z + vz * dt⟩ }

/-- `integrate(deltaTime)` over the whole mass list. -/
def integrate (dt : ℚ) (e : Engine) : Engine :=
  { e with masses := e.masses.map (integrateMass e.damping dt) }

/-- `applyDistanceConstraint`: positional relaxation of one distance
constraint; skipped when the computed distance is 0; fixed endpoints do
not move. -/
def applyDistanceConstraint (sq : ℚ → ℚ) (ms : List Mass)
    (j1 j2 : ℕ) (target stiff : ℚ) : List Mass :=
  match ms.get? j1, ms.get? j2 with
  | some m1, some m2 =>
    let dx := m2.position.x - m1.position.x
    let dy := m2.position.y - m1.position.y
    let dz := m2.position.z - m1.position.z
    let dist := sq (dx * dx + dy * dy + dz * dz)
    if dist = 0 then ms
    else
      let diff := (dist - target) / dist
      let aX := dx * diff * (1/2) * stiff
      let aY := dy * diff * (1/2) * stiff
      let aZ := dz * diff * (1/2) * stiff
      let ms1 :=
        if m1.fixed then ms
        else modifyMass ms j1 (fun m =>
          { m with position := ⟨m.position.x + aX, m.position.y + aY, m.position.z + aZ⟩ })
      if m2.fixed then ms1
      else modifyMass ms1 j2 (fun m =>
        { m with position := ⟨m.position.x - aX, m.position.y - aY, m.position.z - aZ⟩ })
  | _, _ => ms

/-- One `forEach` pass over the constraint array: only distance-tagged
constraints act. -/
def constraintPass (sq : ℚ → ℚ) (ms : List Mass) (cs : List PConstraint) : List Mass :=
  cs.foldl (fun acc c =>
    match c with
    | .distance j1 j2 target stiff => applyDistanceConstraint sq acc j1 j2 target stiff
    | .collision _ _ _ => acc) ms

/-- The `for (let i = 0; i < 3; i++)` relaxation loop. -/
def constraintLoop (sq : ℚ → ℚ) (cs : List PConstraint) : ℕ → List Mass → List Mass
  | 0, ms => ms
  | n + 1, ms => constraintLoop sq cs n (constraintPass sq ms cs)

/-- `applyConstraints`: three full passes over the constraint array. -/
def applyConstraints (sq : ℚ → ℚ) (e : Engine) : Engine :=
  { e with masses := constraintLoop sq e.constraints 3 e.masses }

/-- Ground handling of one mass: a non-fixed mass below `y = -50` is
clamped to `-50`, its vertical velocity negated and scaled by 0.7, its
lateral velocities scaled by 0.9. -/
def collideMass (m : Mass) : Mass :=
  if m.fixed = false ∧ m.position.y < -50 then
    { m with position := { m.position with y := -50 },
             velocity := ⟨m.velocity.x * (9/10), -m.velocity.y * (7/10),
                          m.velocity.z * (9/10)⟩ }
  else m

/-- `handleCollisions` over the whole mass list. -/
def handleCollisions (e : Engine) : Engine :=
  { e with masses := e.masses.map collideMass }

/-- Zeroing of one force accumulator. -/
def clearMass (m : Mass) : Mass := { m with force := ⟨0, 0, 0⟩ }

/-- `clearForces`: zeroes every mass's force accumulator. -/
def clearForces (e : Engine) : Engine :=
  { e with masses := e.masses.map clearMass }

/-- `getMassPositions`: ordered id/position snapshot. -/
def getMassPositions (e : Engine) : List (String × Vec3) :=
  e.masses.map (fun m => (m.id, m.position))

/-- `update(deltaTime)` — the step function.  Returns the new engine state
together with the returned value: `none` models the early `return` (JS
`undefined`) taken when the engine is disabled or `deltaTime <= 0`. -/
def update (sq : ℚ → ℚ) (e : Engine) (dt : ℚ) :
    Engine × Option (List (String × Vec3)) :=
  if e.enabled = false ∨ dt ≤ 0 then (e, none)
  else
    let e5 := clearForces (handleCollisions (applyConstraints sq (integrate dt (applyForces sq e))))
    (e5, some (getMassPositions e5))

/-- `applyForce(massId, force)`: additive force on one named non-fixed
mass; unknown ids and fixed masses are no-ops. -/
def applyForce (e : Engine) (key : String) (f : Vec3) : Engine :=
  match findMass e.masses key with
  | some (j, m) =>
    if m.fixed then e
    else { e with masses := modifyMass e.masses j (fun mm =>
      { mm with force := ⟨mm.force.x + f.x, mm.force.y + f.y, mm.force.z + f.z⟩ }) }
  | none => e

/-- `applyImpulse(massId, impulse)`: `velocity += impulse / mass` on one
named non-fixed mass; unknown ids and fixed masses are no-ops. -/
def applyImpulse (e : Engine) (key : String) (imp : Vec3) : Engine :=
  match findMass e.masses key with
  | some (j, m) =>
    if m.fixed then e
    else { e with masses := modifyMass e.masses j (fun mm =>
      { mm with velocity := ⟨mm.velocity.x + imp.x / mm.mass,
                             mm.velocity.y + imp.y / mm.mass,
                             mm.velocity.z + imp.z / mm.mass⟩ }) }
  | none => e

/-- `toggleFixed(massId)`: flips the fixed flag and returns the new value;
returns the sentinel `none` (JS `null`) for unknown ids. -/
def toggleFixed (e : Engine) (key : String) : Engine × Option Bool :=
  match findMass e.masses key with
  | some (j, m) =>
    ({ e with masses := modifyMass e.masses j (fun mm => { mm with fixed := !mm.fixed }) },
     some (!m.fixed))
  | none => (e, none)

/-- `applyWind(windForce)`: `force += wind * mass` on every non-fixed
mass. -/
def windMass (w : Vec3) (m : Mass) : Mass :=
  if m.fixed then m
  else { m with force := ⟨m.force.x + w.x * m.mass, m.force.y + w.y * m.mass,
                          m.force.z + w.z * m.mass⟩ }

/-- `applyWind` over the whole mass list. -/
def applyWind (e : Engine) (w : Vec3) : Engine :=
  { e with masses := e.masses.map (windMass w) }

/-- Explosion force on one mass: radial force with linear falloff, applied
only when `0 < distance < radius` and the mass is not fixed. -/
def explodeMass (sq : ℚ → ℚ) (c : Vec3) (radius fs : ℚ) (m : Mass) : Mass :=
  if m.fixed then m
  else
    let dx := m.position.x - c.x
    let dy := m.position.y - c.y
    let dz := m.position.z - c.z
    let dist := sq (dx * dx + dy * dy + dz * dz)
    if dist < radius ∧ 0 < dist then
      let att := (radius - dist) / radius
      { m with force := ⟨m.force.x + dx / dist * fs * att * m.mass,
                         m.force.y + dy / dist * fs * att * m.mass,
                         m.force.z + dz / dist * fs * att * m.mass⟩ }
    else m

/-- `applyExplosion(center, radius, force)` over the whole mass list. -/
def applyExplosion (sq : ℚ → ℚ) (e : Engine) (c : Vec3) (radius fs : ℚ) : Engine :=
  { e with masses := e.masses.map (explodeMass sq c radius fs) }

/-- Reset of one mass: position restored from the `originalPositions` map
when present, velocity and force zeroed. -/
def resetMass (origs : List (String × Vec3)) (m : Mass) : Mass :=
  let m1 :=
    match lookupOrig origs m.id with
    | some p => { m with position := p }
    | none => m
  { m1 with velocity := ⟨0, 0, 0⟩, force := ⟨0, 0, 0⟩ }

/-- `reset()`: restores every mass, leaves configuration untouched. -/
def reset (e : Engine) : Engine :=
  { e with masses := e.masses.map (resetMass e.originalPositions) }

/-- Diagnostics record returned by `getPhysicsData`. -/
structure PhysicsData where
  enabled : Bool
  gravity : ℚ
  damping : ℚ
  stiffness : ℚ
  massCount : ℕ
  springCount : ℕ
  constraintCount : ℕ
deriving DecidableEq

/-- `getPhysicsData()`. -/
def getPhysicsData (e : Engine) : PhysicsData :=
  { enabled := e.enabled, gravity := e.gravity, damping := e.damping,
    stiffness := e.stiffness, massCount := e.masses.length,
    springCount := e.springs.length, constraintCount := e.constraints.length }

/-- Trivial stand-in for `Math.sqrt` in scenarios where no norm is ever
computed (no springs, no constraints, no explosion). -/
def sqZero : ℚ → ℚ := fun _ => 0

/-- The y components of the positions of an engine's masses. -/
def posYs (e : Engine) : List ℚ := e.masses.map (fun m => m.position.y)

/-- The y components of the velocities of an engine's masses. -/
def velYs (e : Engine) : List ℚ := e.masses.map (fun m => m.velocity.y)

/-- The fixed flags of an engine's masses. -/
def fixedFlags (e : Engine) : List Bool := e.masses.map (fun m => m.fixed)

/-! ### Helper lemmas -/

theorem modifyMass_get_self : ∀ (ms : List Mass) (j : ℕ) (f : Mass → Mass),
    (modifyMass ms j f).get? j = (ms.get? j).map f
  | [], j, _ => by cases j <;> rfl
  | _ :: _, 0, _ => rfl
  | _ :: ms, j + 1, f => modifyMass_get_self ms j f

theorem modifyMass_get_ne : ∀ (ms : List Mass) (i j : ℕ) (f : Mass → Mass), i ≠ j →
    (modifyMass ms j f).get? i = ms.get? i
  | [], i, j, _, _ => by cases j <;> rfl
  | _ :: _, 0, 0, _, h => absurd rfl h
  | _ :: _, 0, _ + 1, _, _ => rfl
  | _ :: _, _ + 1, 0, _, _ => rfl
  | _ :: ms, i + 1, j + 1, f, h =>
      modifyMass_get_ne ms i j f (fun hh => h (by rw [hh]))

theorem get_map (f : Mass → Mass) : ∀ (ms : List Mass) (i : ℕ),
    (ms.map f).get? i = (ms.get? i).map f
  | [], i => by cases i <;> rfl
  | _ :: _, 0 => rfl
  | _ :: ms, i + 1 => get_map f ms i

theorem gravMass_fixed {g : ℚ} {m : Mass} (h : m.fixed = true) : gravMass g m = m := by
  simp [gravMass, h]

theorem integrateMass_fixed {damp dt : ℚ} {m : Mass} (h : m.fixed = true) :
    integrateMass damp dt m = m := by
  simp [integrateMass, h]

theorem collideMass_fixed {m : Mass} (h : m.fixed = true) : collideMass m = m := by
  simp [collideMass, h]

theorem windMass_fixed {w : Vec3} {m : Mass} (h : m.fixed = true) : windMass w m = m := by
  simp [windMass, h]

theorem explodeMass_fixed {sq : ℚ → ℚ} {c : Vec3} {radius fs : ℚ} {m : Mass}
    (h : m.fixed = true) : explodeMass sq c radius fs m = m := by
  simp [explodeMass, h]

theorem modify_preserve_cond {ms : List Mass} {i j : ℕ} {m : Mass} {c : Bool}
    {f : Mass → Mass}
    (hm : ms.get? i = some m) (hij : i = j → c = true) :
    (if c = true then ms else modifyMass ms j f).get? i = some m := by
  split
  · exact hm
  · rename_i h
    have hne : i ≠ j := fun hh => h (hij hh)
    rw [modifyMass_get_ne ms i j f hne]; exact hm

theorem applySpring_preserve {sq : ℚ → ℚ} {ms : List Mass} {s : Spring} {i : ℕ} {m : Mass}
    (hm : ms.get? i = some m) (hf : m.fixed = true) :
    (applySpring sq ms s).get? i = some m := by
  unfold applySpring
  cases h1 : ms.get? s.i1 with
  | none => simpa [h1] using hm
  | some m1 =>
    cases h2 : ms.get? s.i2 with
    | none => simpa [h1, h2] using hm
    | some m2 =>
      simp only [h1, h2]
      split
      · exact hm
      · apply modify_preserve_cond
        · apply modify_preserve_cond hm
          intro hi
          have heq : m1 = m := by rw [hi, h1] at hm; exact Option.some_inj.mp hm
          rw [heq]; exact hf
        · intro hi
          have heq : m2 = m := by rw [hi, h2] at hm; exact Option.some_inj.mp hm
          rw [heq]; exact hf

theorem foldlSprings_preserve {sq : ℚ → ℚ} {i : ℕ} {m : Mass} (hf : m.fixed = true) :
    ∀ (ss : List Spring) (ms : List Mass), ms.get? i = some m →
      (ss.foldl (applySpring sq) ms).get? i = some m
  | [], _, hm => hm
  | _ :: ss, _, hm => foldlSprings_preserve hf ss _ (applySpring_preserve hm hf)

theorem applyDistanceConstraint_preserve {sq : ℚ → ℚ} {ms : List Mass}
    {j1 j2 : ℕ} {target stiff : ℚ} {i : ℕ} {m : Mass}
    (hm : ms.get? i = some m) (hf : m.fixed = true) :
    (applyDistanceConstraint sq ms j1 j2 target stiff).get? i = some m := by
  unfold applyDistanceConstraint
  cases h1 : ms.get? j1 with
  | none => simpa [h1] using hm
  | some m1 =>
    cases h2 : ms.get? j2 with
    | none => simpa [h1, h2] using hm
    | some m2 =>
      simp only [h1, h2]
      split
      · exact hm
      · apply modify_preserve_cond
        · apply modify_preserve_cond hm
          intro hi
          have heq : m1 = m := by rw [hi, h1] at hm; exact Option.some_inj.mp hm
          rw [heq]; exact hf
        · intro hi
          have heq : m2 = m := by rw [hi, h2] at hm; exact Option.some_inj.mp hm
          rw [heq]; exact hf

theorem constraintPass_preserve {sq : ℚ → ℚ} {i : ℕ} {m : Mass} (hf : m.fixed = true) :
    ∀ (cs : List PConstraint) (ms : List Mass), ms.get? i = some m →
      (constraintPass sq ms cs).get? i = some m
  | [], _, hm => hm
  | c :: cs, ms, hm => by
      cases c with
      | distance j1 j2 target stiff =>
        exact constraintPass_preserve hf cs _ (applyDistanceConstraint_preserve hm hf)
      | collision _ _ _ =>
        exact constraintPass_preserve hf cs ms hm

theorem constraintLoop_preserve {sq : ℚ → ℚ} {i : ℕ} {m : Mass} (hf : m.fixed = true)
    (cs : List PConstraint) :
    ∀ (n : ℕ) (ms : List Mass), ms.get? i = some m →
      (constraintLoop sq cs n ms).get? i = some m
  | 0, _, hm => hm
  | n + 1, ms, hm =>
      constraintLoop_preserve hf cs n _ (constraintPass_preserve hf cs ms hm)

theorem map_preserve {g : Mass → Mass} {ms : List Mass} {i : ℕ} {m : Mass}
    (hm : ms.get? i = some m) (hgm : g m = m) :
    (ms.map g).get? i = some m := by
  rw [get_map, hm]; simp [hgm]

theorem update_preserve_fixed {sq : ℚ → ℚ} {e : Engine} {dt : ℚ} {i : ℕ} {m : Mass}
    (hm : e.masses.get? i = some m) (hf : m.fixed = true) :
    (update sq e dt).1.masses.get? i = some { m with force := ⟨0, 0, 0⟩ } ∨
    (update sq e dt).1.masses.get? i = some m := by
  unfold update
  split
  · exact Or.inr hm
  · left
    simp only [clearForces, handleCollisions, applyConstraints, integrate, applyForces]
    rw [get_map, get_map,
      constraintLoop_preserve hf e.constraints 3 _
        (map_preserve
          (foldlSprings_preserve hf e.springs _ (map_preserve hm (gravMass_fixed hf)))
          (integrateMass_fixed hf))]
    simp [collideMass_fixed hf, clearMass]

theorem update_noop {sq : ℚ → ℚ} {e : Engine} {dt : ℚ} (h : e.enabled = false ∨ dt ≤ 0) :
    update sq e dt = (e, none) := by
  unfold update; rw [if_pos h]

theorem update_run_fst {sq : ℚ → ℚ} {e : Engine} {dt : ℚ}
    (h1 : e.enabled = true) (h2 : 0 < dt) :
    (update sq e dt).1 =
      clearForces (handleCollisions (applyConstraints sq (integrate dt (applyForces sq e)))) := by
  unfold update
  rw [if_neg (by simp [h1, not_or, not_le, h2])]

theorem constraintLoop_nil {sq : ℚ → ℚ} : ∀ (n : ℕ) (ms : List Mass),
    constraintLoop sq [] n ms = ms
  | 0, _ => rfl
  | n + 1, ms => constraintLoop_nil n ms

theorem integrateMass_posY {damp dt : ℚ} {m : Mass} (h : m.fixed = false) :
    (integrateMass damp dt m).position.y =
      m.position.y + (integrateMass damp dt m).velocity.y * dt := by
  simp [integrateMass, h]

theorem findMassAux_get : ∀ (ms : List Mass) (key : String) (n j : ℕ) (mj : Mass),
    findMassAux ms key n = some (j, mj) → n ≤ j ∧ ms.get? (j - n) = some mj
  | [], _, _, _, _, h => absurd h (by simp [findMassAux])
  | m :: ms, key, n, j, mj, h => by
      unfold findMassAux at h
      split at h
      · obtain ⟨rfl, rfl⟩ : n = j ∧ m = mj := by
          have hp := Option.some_inj.mp h
          exact ⟨congrArg Prod.fst hp, congrArg Prod.snd hp⟩
        exact ⟨le_refl n, by simp⟩
      · obtain ⟨hle, hget⟩ := findMassAux_get ms key (n + 1) j mj h
        refine ⟨le_trans (Nat.le_succ n) hle, ?_⟩
        have hj : j - n = (j - (n + 1)) + 1 := by omega
        rw [hj]
        exact hget

theorem findMass_get {ms : List Mass} {key : String} {j : ℕ} {mj : Mass}
    (h : findMass ms key = some (j, mj)) : ms.get? j = some mj := by
  have hx := findMassAux_get ms key 0 j mj h
  simpa using hx.2

theorem findMassAux_id : ∀ (ms : List Mass) (key : String) (n j : ℕ) (mj : Mass),
    findMassAux ms key n = some (j, mj) → mj.id = key
  | [], _, _, _, _, h => absurd h (by simp [findMassAux])
  | m :: ms, key, n, j, mj, h => by
      unfold findMassAux at h
      split at h
      · rename_i hid
        have hp : m = mj := congrArg Prod.snd (Option.some_inj.mp h)
        rw [← hp]
        exact hid
      · exact findMassAux_id ms key (n + 1) j mj h

theorem findMass_id {ms : List Mass} {key : String} {j : ℕ} {mj : Mass}
    (h : findMass ms key = some (j, mj)) : mj.id = key :=
  findMassAux_id ms key 0 j mj h

theorem findMassAux_eq_none : ∀ (ms : List Mass) (key : String) (n : ℕ),
    (∀ m ∈ ms, m.id ≠ key) → findMassAux ms key n = none
  | [], _, _, _ => rfl
  | m :: ms, key, n, h => by
      unfold findMassAux
      rw [if_neg (h m (List.mem_cons_self m ms))]
      exact findMassAux_eq_none ms key (n + 1) (fun x hx => h x (List.mem_cons_of_mem m hx))

theorem findMass_eq_none {ms : List Mass} {key : String}
    (h : ∀ m ∈ ms, m.id ≠ key) : findMass ms key = none :=
  findMassAux_eq_none ms key 0 h

/-! ### Concrete scenario inputs -/

/-- A single free mass resting exactly at the ground level (what
`parsePhysicsData` produces for one surface vertex of weight 1 at
`(0, -50, 0)`). -/
def massFall : Mass :=
  { id := "b", position := ⟨0, -50, 0⟩, originalPosition := ⟨0, -50, 0⟩,
    velocity := ⟨0, 0, 0⟩, force := ⟨0, 0, 0⟩, mass := 10, fixed := false,
    group := "torso", type := "surface" }

/-- Enabled single-mass engine sitting at the ground. -/
def engFall : Engine :=
  { initEngine with enabled := true, masses := [massFall],
                    originalPositions := [("b", ⟨0, -50, 0⟩)] }

/-- A single free mass at the origin. -/
def massFree : Mass :=
  { id := "a", position := ⟨0, 0, 0⟩, originalPosition := ⟨0, 0, 0⟩,
    velocity := ⟨0, 0, 0⟩, force := ⟨0, 0, 0⟩, mass := 10, fixed := false,
    group := "torso", type := "surface" }

/-- Enabled single-mass engine at the origin. -/
def engFree : Engine :=
  { initEngine with enabled := true, masses := [massFree],
                    originalPositions := [("a", ⟨0, 0, 0⟩)] }

/-- A single fixed (joint) mass at the origin. -/
def massJoint : Mass :=
  { id := "a", position := ⟨0, 0, 0⟩, originalPosition := ⟨0, 0, 0⟩,
    velocity := ⟨0, 0, 0⟩, force := ⟨0, 0, 0⟩, mass := 10, fixed := true,
    group := "torso", type := "joint" }

/-- Disabled single-joint engine. -/
def engDis : Engine :=
  { initEngine with masses := [massJoint], originalPositions := [("a", ⟨0, 0, 0⟩)] }

/-- Enabled single-joint engine. -/
def engFix : Engine :=
  { initEngine with enabled := true, masses := [massJoint],
                    originalPositions := [("a", ⟨0, 0, 0⟩)] }

/-- A single free mass below the ground with nonzero velocity. -/
def massUnder : Mass :=
  { id := "u", position := ⟨0, -60, 0⟩, originalPosition := ⟨0, -60, 0⟩,
    velocity := ⟨1, -2, 3⟩, force := ⟨0, 0, 0⟩, mass := 10, fixed := false,
    group := "torso", type := "surface" }

/-- Enabled engine holding `massUnder`. -/
def engUnder : Engine :=
  { initEngine with enabled := true, masses := [massUnder],
                    originalPositions := [("u", ⟨0, -60, 0⟩)] }

/-- A free constraint-endpoint mass at the origin. -/
def cMassA : Mass :=
  { id := "ca", position := ⟨0, 0, 0⟩, originalPosition := ⟨0, 0, 0⟩,
    velocity := ⟨0, 0, 0⟩, force := ⟨0, 0, 0⟩, mass := 10, fixed := false,
    group := "torso", type := "surface" }

/-- A free constraint-endpoint mass at `(3, 0, 0)`. -/
def cMassB : Mass :=
  { id := "cb", position := ⟨3, 0, 0⟩, originalPosition := ⟨3, 0, 0⟩,
    velocity := ⟨0, 0, 0⟩, force := ⟨0, 0, 0⟩, mass := 10, fixed := false,
    group := "torso", type := "surface" }

/-- Enabled engine holding `cMassB` only (used for the explosion witness). -/
def engEx : Engine :=
  { initEngine with enabled := true, masses := [cMassB],
                    originalPositions := [("cb", ⟨3, 0, 0⟩)] }

/-- A square-root stand-in that is exact at 9. -/
def sqNine : ℚ → ℚ := fun q => if q = 9 then 3 else 0

/-- One non-fixed vertex below the ground level. -/
def mdBelow : MeshData :=
  { vertices := [{ id := "v", x := 0, y := -60, z := 0, group := "torso",
                   type := "surface", weight := 1 }],
    edges := [], muscleTension := none, jointConstraints := false }

/-- One non-fixed vertex above the ground level, with joint constraints
enabled. -/
def mdTop : MeshData :=
  { vertices := [{ id := "t", x := 0, y := 0, z := 0, group := "torso",
                   type := "surface", weight := 1 }],
    edges := [], muscleTension := none, jointConstraints := true }

/-- Two free vertices 10 apart used by the construction witnesses. -/
def vsPair : List Vertex :=
  [{ id := "p", x := 0, y := 0, z := 0, group := "torso", type := "surface", weight := 1 },
   { id := "q", x := 0, y := -10, z := 0, group := "torso", type := "surface", weight := 1 }]

/-! ### Claims -/

/-- C1 counterexample: the free-fall recurrence does not hold at every
step.  For a single free mass resting exactly at the ground (`y = -50`),
gravity 9.8, damping 0.95, `dt = 1/60`, the law predicts
`y1 = y0 + v1*dt = -50 - 931/360000`, but the collision phase of the step
clamps the position to `-50` and rebounds the velocity, so the claimed
recurrence fails at this step. -/
theorem freefall_law_fails_at_ground :
    posYs (update sqZero engFall (1/60)).1 = [-50] ∧
    velYs (update sqZero engFall (1/60)).1 = [931/6000 * (7/10)] ∧
    (-50 : ℚ) ≠ -50 + 19/20 * (0 - 49/5 * (1/60)) * (1/60) := by
  refine ⟨?_, ?_, by norm_num⟩ <;>
    norm_num [posYs, velYs, engFall, massFall, initEngine, update, applyForces,
      gravMass, integrate, integrateMass, applyConstraints, constraintLoop_nil,
      handleCollisions, collideMass, clearForces, clearMass]

/-- C1 (amended): an enabled `step(dt)` with `dt > 0` updates every
non-fixed mass by `v += (F/m)*dt; v *= damping; p += v*dt`; consequently a
single non-fixed mass with no springs and no constraints, with force
accumulator zero, satisfies `v_{n+1} = damping*(v_n - g*dt)` (signed y
velocity) and `y_{n+1} = y_n + v_{n+1}*dt` at every step at which the
predicted position stays at or above the ground level `-50`; below that
the collision phase overrides the law. -/
theorem freefall_step_law_above_ground (sq : ℚ → ℚ) (e : Engine) (m : Mass) (dt : ℚ)
    (hm : e.masses = [m]) (hs : e.springs = []) (hc : e.constraints = [])
    (he : e.enabled = true) (hdt : 0 < dt)
    (hfx : m.fixed = false) (hforce : m.force.y = 0) (hmass : m.mass ≠ 0)
    (hground : -50 ≤ m.position.y + e.damping * (m.velocity.y - e.gravity * dt) * dt) :
    velYs (update sq e dt).1 = [e.damping * (m.velocity.y - e.gravity * dt)] ∧
    posYs (update sq e dt).1 =
      [m.position.y + e.damping * (m.velocity.y - e.gravity * dt) * dt] := by
  have h1 : applyForces sq e = { e with masses := [gravMass e.gravity m] } := by
    unfold applyForces; rw [hm, hs]; rfl
  have h2 : integrate dt (applyForces sq e) =
      { e with masses := [integrateMass e.damping dt (gravMass e.gravity m)] } := by
    rw [h1]; rfl
  have h3 : applyConstraints sq (integrate dt (applyForces sq e)) =
      { e with masses := [integrateMass e.damping dt (gravMass e.gravity m)] } := by
    rw [h2]
    show { e with masses :=
      (constraintLoop sq e.constraints 3 [integrateMass e.damping dt (gravMass e.gravity m)]) } = _
    rw [hc, constraintLoop_nil]
  have hgm : gravMass e.gravity m =
      { m with force := { m.force with y := m.force.y - m.mass * e.gravity } } := by
    simp [gravMass, hfx]
  have hify : (integrateMass e.damping dt (gravMass e.gravity m)).velocity.y =
      e.damping * (m.velocity.y - e.gravity * dt) := by
    rw [hgm]; simp [integrateMass, hfx, hforce]; field_simp; ring
  have hgfix : (gravMass e.gravity m).fixed = false := by rw [hgm]; exact hfx
  have hipy : (integrateMass e.damping dt (gravMass e.gravity m)).position.y =
      m.position.y + e.damping * (m.velocity.y - e.gravity * dt) * dt := by
    rw [integrateMass_posY hgfix, hify,
      show (gravMass e.gravity m).position.y = m.position.y from by rw [hgm]]
  have hcol : collideMass (integrateMass e.damping dt (gravMass e.gravity m)) =
      integrateMass e.damping dt (gravMass e.gravity m) := by
    unfold collideMass
    rw [if_neg]
    rintro ⟨-, hlt⟩
    rw [hipy] at hlt
    exact absurd hlt (not_lt.mpr hground)
  have h5 : (update sq e dt).1 =
      { e with masses := [clearMass (collideMass (integrateMass e.damping dt (gravMass e.gravity m)))] } := by
    rw [update_run_fst he hdt, h3]; rfl
  rw [h5, hcol]
  constructor
  · show [(clearMass (integrateMass e.damping dt (gravMass e.gravity m))).velocity.y] = _
    rw [show (clearMass (integrateMass e.damping dt (gravMass e.gravity m))).velocity
          = (integrateMass e.damping dt (gravMass e.gravity m)).velocity from rfl, hify]
  · show [(clearMass (integrateMass e.damping dt (gravMass e.gravity m))).position.y] = _
    rw [show (clearMass (integrateMass e.damping dt (gravMass e.gravity m))).position
          = (integrateMass e.damping dt (gravMass e.gravity m)).position from rfl, hipy]

/-- C1 witness: the amended free-fall law evaluated on the concrete
single-mass engine at the origin. -/
theorem freefall_step_law_above_ground_wit :
    velYs (update sqZero engFree (1/60)).1 =
      [engFree.damping * (massFree.velocity.y - engFree.gravity * (1/60))] ∧
    posYs (update sqZero engFree (1/60)).1 =
      [massFree.position.y +
        engFree.damping * (massFree.velocity.y - engFree.gravity * (1/60)) * (1/60)] :=
  freefall_step_law_above_ground sqZero engFree massFree (1/60) rfl rfl rfl rfl
    (by norm_num) rfl rfl (by norm_num [massFree])
    (by norm_num [engFree, massFree, initEngine])

/-- C3: whenever the engine is disabled or `dt <= 0`, `step(dt)` returns
nothing and performs no mutation at all (forces are not cleared); forces
are zeroed only as the last phase of a successful enabled step: every mass
coming out of such a step has force zero. -/
theorem step_noop_and_clear (sq : ℚ → ℚ) (e e2 : Engine) (dt dt2 : ℚ)
    (h : e.enabled = false ∨ dt ≤ 0) (h2 : e2.enabled = true) (h3 : 0 < dt2)
    (i : ℕ) (m : Mass) (hm : (update sq e2 dt2).1.masses.get? i = some m) :
    update sq e dt = (e, none) ∧ m.force = ⟨0, 0, 0⟩ := by
  refine ⟨update_noop h, ?_⟩
  rw [update_run_fst h2 h3] at hm
  simp only [clearForces] at hm
  rw [get_map] at hm
  rcases Option.map_eq_some'.mp hm with ⟨m', -, rfl⟩
  rfl

/-- C5: every non-fixed mass whose `position.y` is below `-50` is, in the
collision phase, clamped to `y = -50` with `velocity.y` replaced by `-0.7`
times its previous value and `velocity.x`, `velocity.z` scaled by `0.9`;
fixed masses and masses at `y >= -50` are unchanged by this phase. -/
theorem ground_clamp_law (e : Engine) (i : ℕ) (m : Mass)
    (hm : e.masses.get? i = some m) :
    (handleCollisions e).masses.get? i = some (
      if m.fixed = false ∧ m.position.y < -50 then
        { m with position := { m.position with y := -50 },
                 velocity := ⟨m.velocity.x * (9/10), -m.velocity.y * (7/10),
                              m.velocity.z * (9/10)⟩ }
      else m) := by
  show (e.masses.map collideMass).get? i = _
  rw [get_map, hm]
  rfl

/-- C5 witness: a free mass at `y = -60` with velocity `(1, -2, 3)` gets
clamped to `y = -50` with velocity `(0.9, 1.4, 2.7)`. -/
theorem ground_clamp_law_wit :
    (handleCollisions engUnder).masses.get? 0 =
      some { massUnder with
        position := { massUnder.position with y := -50 },
        velocity := ⟨massUnder.velocity.x * (9/10), -massUnder.velocity.y * (7/10),
                     massUnder.velocity.z * (9/10)⟩ } := by
  rw [ground_clamp_law engUnder 0 massUnder rfl, if_pos]
  exact ⟨rfl, by norm_num [massUnder, massFall]⟩

/-- C2 counterexample: a non-fixed mass given vertical velocity 1 by
`applyImpulse` and then fixed by `toggleFixed` is a fixed mass whose
velocity is not zero, contradicting "velocity and force are zero at every
point after it became fixed". -/
theorem fixed_mass_nonzero_velocity_cex :
    fixedFlags (toggleFixed (applyImpulse engFree "a" ⟨0, 10, 0⟩) "a").1 = [true] ∧
    velYs (toggleFixed (applyImpulse engFree "a" ⟨0, 10, 0⟩) "a").1 = [1] ∧
    (1 : ℚ) ≠ 0 := by
  refine ⟨?_, ?_, by norm_num⟩ <;>
    norm_num [fixedFlags, velYs, toggleFixed, applyImpulse, findMass, findMassAux,
      modifyMass, engFree, massFree, initEngine]

/-- C2 (amended): a mass whose fixed flag is true is never moved or
accelerated: `step` leaves its position and velocity unchanged (clearing
only its force accumulator, like every mass's), and `applyForce`,
`applyImpulse`, `applyWind`, `applyExplosion` leave it entirely unchanged.
(`toggleFixed` does not zero velocity/force when fixing a mass, and
`reset` restores even a fixed mass's position to `originalPosition`.) -/
theorem fixed_mass_preserved_by_ops (sq : ℚ → ℚ) (e : Engine) (dt : ℚ)
    (key : String) (f imp w c : Vec3) (radius fs : ℚ) (i : ℕ) (m : Mass)
    (hm : e.masses.get? i = some m) (hf : m.fixed = true) :
    ((update sq e dt).1.masses.get? i).map Mass.position = some m.position ∧
    ((update sq e dt).1.masses.get? i).map Mass.velocity = some m.velocity ∧
    (applyForce e key f).masses.get? i = some m ∧
    (applyImpulse e key imp).masses.get? i = some m ∧
    (applyWind e w).masses.get? i = some m ∧
    (applyExplosion sq e c radius fs).masses.get? i = some m := by
  refine ⟨?_, ?_, ?_, ?_, ?_, ?_⟩
  · rcases @update_preserve_fixed sq e dt i m hm hf with h | h <;> rw [h] <;> rfl
  · rcases @update_preserve_fixed sq e dt i m hm hf with h | h <;> rw [h] <;> rfl
  · unfold applyForce
    cases hfind : findMass e.masses key with
    | none => exact hm
    | some jm =>
      obtain ⟨j, mj⟩ := jm
      simp only []
      split
      · exact hm
      · rename_i hnf
        have hj : e.masses.get? j = some mj := findMass_get hfind
        have hne : i ≠ j := by
          intro hh
          rw [hh, hj] at hm
          have hmm : mj = m := Option.some_inj.mp hm
          rw [hmm] at hnf
          exact hnf hf
        rw [modifyMass_get_ne _ _ _ _ hne]; exact hm
  · unfold applyImpulse
    cases hfind : findMass e.masses key with
    | none => exact hm
    | some jm =>
      obtain ⟨j, mj⟩ := jm
      simp only []
      split
      · exact hm
      · rename_i hnf
        have hj : e.masses.get? j = some mj := findMass_get hfind
        have hne : i ≠ j := by
          intro hh
          rw [hh, hj] at hm
          have hmm : mj = m := Option.some_inj.mp hm
          rw [hmm] at hnf
          exact hnf hf
        rw [modifyMass_get_ne _ _ _ _ hne]; exact hm
  · exact map_preserve hm (windMass_fixed hf)
  · exact map_preserve hm (explodeMass_fixed hf)

/-- C2 witness: the amended preservation properties evaluated on the
enabled single-joint engine. -/
theorem fixed_mass_preserved_by_ops_wit :
    ((update sqZero engFix (1/60)).1.masses.get? 0).map Mass.position = some massJoint.position ∧
    ((update sqZero engFix (1/60)).1.masses.get? 0).map Mass.velocity = some massJoint.velocity ∧
    (applyForce engFix "a" ⟨1, 2, 3⟩).masses.get? 0 = some massJoint ∧
    (applyImpulse engFix "a" ⟨1, 2, 3⟩).masses.get? 0 = some massJoint ∧
    (applyWind engFix ⟨1, 2, 3⟩).masses.get? 0 = some massJoint ∧
    (applyExplosion sqZero engFix ⟨5, 5, 5⟩ 100 3).masses.get? 0 = some massJoint :=
  fixed_mass_preserved_by_ops sqZero engFix (1/60) "a" ⟨1, 2, 3⟩ ⟨1, 2, 3⟩ ⟨1, 2, 3⟩
    ⟨5, 5, 5⟩ 100 3 0 massJoint rfl rfl

/-- C3 witness: a disabled engine is untouched by `step`, and the mass
coming out of a successful step of the enabled engine has zero force. -/
theorem step_noop_and_clear_wit :
    update sqZero engDis 1 = (engDis, none) ∧ massJoint.force = ⟨0, 0, 0⟩ :=
  step_noop_and_clear sqZero engDis engFix 1 (1/60) (Or.inl rfl)
    rfl (by norm_num) 0 massJoint
    (by rw [update_run_fst rfl (by norm_num)]
        norm_num [engFix, massJoint, initEngine, applyForces, gravMass,
          applySpring, integrate, integrateMass, applyConstraints,
          constraintLoop_nil, handleCollisions, collideMass, clearForces, clearMass])

/-- C9: unknown ids passed to `applyForce`, `applyImpulse`, `toggleFixed`
leave the engine unchanged and `toggleFixed` returns the sentinel `none`
instead of raising an error; `applyForce` and `applyImpulse` are also
complete no-ops when the named mass exists but is fixed. -/
theorem unknown_id_noop (e e2 : Engine) (key key2 : String) (f imp f2 imp2 : Vec3)
    (h : ∀ m ∈ e.masses, m.id ≠ key)
    (h2 : ∀ m ∈ e2.masses, m.id = key2 → m.fixed = true) :
    applyForce e key f = e ∧ applyImpulse e key imp = e ∧
    toggleFixed e key = (e, none) ∧
    applyForce e2 key2 f2 = e2 ∧ applyImpulse e2 key2 imp2 = e2 := by
  have hn : findMass e.masses key = none := findMass_eq_none h
  refine ⟨?_, ?_, ?_, ?_, ?_⟩
  · unfold applyForce; rw [hn]
  · unfold applyImpulse; rw [hn]
  · unfold toggleFixed; rw [hn]
  · unfold applyForce
    cases hfind : findMass e2.masses key2 with
    | none => rfl
    | some jm =>
      obtain ⟨j, mj⟩ := jm
      have hfx := h2 mj (List.get?_mem (findMass_get hfind)) (findMass_id hfind)
      simp only []
      rw [if_pos hfx]
  · unfold applyImpulse
    cases hfind : findMass e2.masses key2 with
    | none => rfl
    | some jm =>
      obtain ⟨j, mj⟩ := jm
      have hfx := h2 mj (List.get?_mem (findMass_get hfind)) (findMass_id hfind)
      simp only []
      rw [if_pos hfx]

/-- C9 witness: an unknown id on the free-mass engine and the (existing
but fixed) id "a" on the joint engine are all no-ops. -/
theorem unknown_id_noop_wit :
    applyForce engFree "zzz" ⟨1, 2, 3⟩ = engFree ∧
    applyImpulse engFree "zzz" ⟨4, 5, 6⟩ = engFree ∧
    toggleFixed engFree "zzz" = (engFree, none) ∧
    applyForce engFix "a" ⟨1, 2, 3⟩ = engFix ∧
    applyImpulse engFix "a" ⟨4, 5, 6⟩ = engFix :=
  unknown_id_noop engFree engFix "zzz" "a" ⟨1, 2, 3⟩ ⟨4, 5, 6⟩ ⟨1, 2, 3⟩ ⟨4, 5, 6⟩
    (by decide) (by decide)

theorem resetMass_id (origs : List (String × Vec3)) (m : Mass) :
    (resetMass origs m).id = m.id := by
  unfold resetMass
  split <;> rfl

theorem resetMass_idem (origs : List (String × Vec3)) (m : Mass) :
    resetMass origs (resetMass origs m) = resetMass origs m := by
  unfold resetMass
  cases h : lookupOrig origs m.id <;> simp [h]

/-- C8: `reset()` restores every mass's position to the recorded original
position, zeroes velocity and force, leaves the enabled flag and the
gravity/stiffness/damping configuration unchanged, and is idempotent. -/
theorem reset_restores_and_idempotent (e : Engine)
    (hwf : ∀ m ∈ e.masses, lookupOrig e.originalPositions m.id = some m.originalPosition) :
    (reset e).masses.map Mass.position = e.masses.map Mass.originalPosition ∧
    (∀ m ∈ (reset e).masses, m.velocity = ⟨0, 0, 0⟩ ∧ m.force = ⟨0, 0, 0⟩) ∧
    (reset e).enabled = e.enabled ∧ (reset e).gravity = e.gravity ∧
    (reset e).stiffness = e.stiffness ∧ (reset e).damping = e.damping ∧
    reset (reset e) = reset e := by
  refine ⟨?_, ?_, rfl, rfl, rfl, rfl, ?_⟩
  · show (e.masses.map (resetMass e.originalPositions)).map Mass.position = _
    rw [List.map_map]
    apply List.map_congr_left
    intro m hm
    show (resetMass e.originalPositions m).position = m.originalPosition
    unfold resetMass
    rw [hwf m hm]
  · intro m hm
    rcases List.mem_map.mp hm with ⟨m', _, rfl⟩
    exact ⟨rfl, rfl⟩
  · show reset (reset e) = reset e
    unfold reset
    congr 1
    rw [List.map_map]
    apply List.map_congr_left
    intro m _
    exact resetMass_idem e.originalPositions m

/-- C8 witness: reset on the below-ground engine restores the original
position, zeroes velocity/force, keeps the configuration and is
idempotent. -/
theorem reset_restores_and_idempotent_wit :
    (reset engUnder).masses.map Mass.position = engUnder.masses.map Mass.originalPosition ∧
    (∀ m ∈ (reset engUnder).masses, m.velocity = ⟨0, 0, 0⟩ ∧ m.force = ⟨0, 0, 0⟩) ∧
    (reset engUnder).enabled = engUnder.enabled ∧
    (reset engUnder).gravity = engUnder.gravity ∧
    (reset engUnder).stiffness = engUnder.stiffness ∧
    (reset engUnder).damping = engUnder.damping ∧
    reset (reset engUnder) = reset engUnder :=
  reset_restores_and_idempotent engUnder (by decide)

theorem mkSprings_stiffness {sq : ℚ → ℚ} {masses : List Mass} {t : ℚ} :
    ∀ (eds : List (String × String)), ∀ s ∈ mkSprings sq masses t eds, s.stiffness = t
  | [], s, hs => absurd hs (List.not_mem_nil s)
  | ed :: rest, s, hs => by
      unfold mkSprings at hs
      rcases List.mem_append.mp hs with h | h
      · split at h
        · rw [List.mem_singleton] at h
          rw [h]
        · exact absurd h (List.not_mem_nil s)
      · exact mkSprings_stiffness rest s h

/-- C10: supplying `muscleTension = 0` in the topology produces exactly
the same engine as omitting the field: the default 0.3 scale triggers on
the falsy value 0, and every created spring gets stiffness
`0.3 * globalStiffness`. -/
theorem muscle_tension_zero_default (sq : ℚ → ℚ) (e : Engine) (vs : List Vertex)
    (eds : List (String × String)) (jc : Bool) :
    parsePhysicsData sq
        { vertices := vs, edges := eds, muscleTension := some 0, jointConstraints := jc } e =
      parsePhysicsData sq
        { vertices := vs, edges := eds, muscleTension := none, jointConstraints := jc } e ∧
    ∀ s ∈ (parsePhysicsData sq
        { vertices := vs, edges := eds, muscleTension := some 0, jointConstraints := jc } e).springs,
      s.stiffness = 3/10 * e.stiffness := by
  have hz : (if (0 : ℚ) = 0 then (3 : ℚ)/10 else 0) = 3/10 := if_pos rfl
  constructor
  · unfold parsePhysicsData
    rw [show (match (some (0 : ℚ) : Option ℚ) with
          | some t => if t = 0 then (3 : ℚ)/10 else t
          | none => (3 : ℚ)/10) = ((3 : ℚ)/10) from hz]
  · intro s hs
    have hs2 : s ∈ mkSprings sq (vs.map mkMass) (3/10 * e.stiffness) eds := by
      revert hs
      show s ∈ mkSprings sq (vs.map mkMass)
          ((if (0 : ℚ) = 0 then (3 : ℚ)/10 else 0) * e.stiffness) eds → _
      rw [hz]
      exact id
    exact mkSprings_stiffness eds s hs2

/-- C10 witness: a two-vertex, one-edge topology with `muscleTension = 0`
and with the field absent parse identically, and the created spring has
stiffness `0.3 * 0.15`. -/
theorem muscle_tension_zero_default_wit :
    parsePhysicsData sqZero
        { vertices := vsPair, edges := [("p", "q")], muscleTension := some 0,
          jointConstraints := false } initEngine =
      parsePhysicsData sqZero
        { vertices := vsPair, edges := [("p", "q")], muscleTension := none,
          jointConstraints := false } initEngine ∧
    ∀ s ∈ (parsePhysicsData sqZero
        { vertices := vsPair, edges := [("p", "q")], muscleTension := some 0,
          jointConstraints := false } initEngine).springs,
      s.stiffness = 3/10 * initEngine.stiffness :=
  muscle_tension_zero_default sqZero initEngine vsPair [("p", "q")] false

/-- C6: the relaxation phase makes exactly 3 full passes; within a pass a
distance constraint with computed distance `d` is skipped when `d = 0`,
and otherwise moves each non-fixed endpoint by `±0.5 * diff * stiffness`
times the separation vector, where `diff = (d - targetDistance) / d`
(fixed endpoints do not move). -/
theorem distance_constraint_relaxation (sq : ℚ → ℚ) (e : Engine) (ms : List Mass)
    (j1 j2 : ℕ) (target stiff : ℚ) (m1 m2 : Mass)
    (h1 : ms.get? j1 = some m1) (h2 : ms.get? j2 = some m2) (hne : j1 ≠ j2) :
    (applyConstraints sq e).masses =
      constraintPass sq (constraintPass sq (constraintPass sq e.masses e.constraints)
        e.constraints) e.constraints ∧
    (sq (normSq (vsub m2.position m1.position)) = 0 →
      applyDistanceConstraint sq ms j1 j2 target stiff = ms) ∧
    (∀ d : ℚ, sq (normSq (vsub m2.position m1.position)) = d → d ≠ 0 →
      (applyDistanceConstraint sq ms j1 j2 target stiff).get? j1 =
        some (if m1.fixed then m1 else
          { m1 with position := vadd m1.position
                      (vscale ((1/2) * ((d - target) / d) * stiff)
                        (vsub m2.position m1.position)) }) ∧
      (applyDistanceConstraint sq ms j1 j2 target stiff).get? j2 =
        some (if m2.fixed then m2 else
          { m2 with position := vsub m2.position
                      (vscale ((1/2) * ((d - target) / d) * stiff)
                        (vsub m2.position m1.position)) })) := by
  refine ⟨rfl, ?_, ?_⟩
  · intro h0
    have h0' : sq ((m2.position.x - m1.position.x) * (m2.position.x - m1.position.x) +
        (m2.position.y - m1.position.y) * (m2.position.y - m1.position.y) +
        (m2.position.z - m1.position.z) * (m2.position.z - m1.position.z)) = 0 := h0
    unfold applyDistanceConstraint
    simp only [h1, h2]
    rw [if_pos h0']
  · intro d hd hdnz
    have hd' : sq ((m2.position.x - m1.position.x) * (m2.position.x - m1.position.x) +
        (m2.position.y - m1.position.y) * (m2.position.y - m1.position.y) +
        (m2.position.z - m1.position.z) * (m2.position.z - m1.position.z)) = d := hd
    unfold applyDistanceConstraint
    simp only [h1, h2, hd']
    rw [if_neg hdnz]
    constructor
    · have hfirst : ∀ (ms1 : List Mass) (v : Mass), ms1.get? j1 = some v →
          ((if m2.fixed = true then ms1 else modifyMass ms1 j2 (fun m =>
            { m with position := ⟨m.position.x - (m2.position.x - m1.position.x) * ((d - target) / d) * (1/2) * stiff,
                                  m.position.y - (m2.position.y - m1.position.y) * ((d - target) / d) * (1/2) * stiff,
                                  m.position.z - (m2.position.z - m1.position.z) * ((d - target) / d) * (1/2) * stiff⟩ })).get? j1
            = some v) := by
        intro ms1 v hms1
        split
        · exact hms1
        · rw [modifyMass_get_ne _ _ _ _ hne]; exact hms1
      by_cases hm1 : m1.fixed = true
      · rw [if_pos hm1]
        rw [hfirst ms m1 h1]
        rw [if_pos hm1]
      · rw [if_neg hm1]
        rw [hfirst (modifyMass ms j1 (fun m =>
            { m with position := ⟨m.position.x + (m2.position.x - m1.position.x) * ((d - target) / d) * (1/2) * stiff,
                                  m.position.y + (m2.position.y - m1.position.y) * ((d - target) / d) * (1/2) * stiff,
                                  m.position.z + (m2.position.z - m1.position.z) * ((d - target) / d) * (1/2) * stiff⟩ }))
          ({ m1 with position := ⟨m1.position.x + (m2.position.x - m1.position.x) * ((d - target) / d) * (1/2) * stiff,
                                  m1.position.y + (m2.position.y - m1.position.y) * ((d - target) / d) * (1/2) * stiff,
                                  m1.position.z + (m2.position.z - m1.position.z) * ((d - target) / d) * (1/2) * stiff⟩ })
          (by rw [modifyMass_get_self, h1]; rfl)]
        rw [if_neg hm1]
        congr 1
        simp only [vadd, vscale, vsub, Mass.mk.injEq, Vec3.mk.injEq, and_true, true_and]
        and_intros <;> first | rfl | ring
    · have hsnd : (if m1.fixed = true then ms else modifyMass ms j1 (fun m =>
          { m with position := ⟨m.position.x + (m2.position.x - m1.position.x) * ((d - target) / d) * (1/2) * stiff,
                                m.position.y + (m2.position.y - m1.position.y) * ((d - target) / d) * (1/2) * stiff,
                                m.position.z + (m2.position.z - m1.position.z) * ((d - target) / d) * (1/2) * stiff⟩ })).get? j2
          = some m2 := by
        split
        · exact h2
        · rw [modifyMass_get_ne _ _ _ _ (Ne.symm hne)]; exact h2
      by_cases hm2 : m2.fixed = true
      · rw [if_pos hm2, hsnd, if_pos hm2]
      · rw [if_neg hm2]
        rw [modifyMass_get_self, hsnd]
        rw [if_neg hm2]
        simp only [Option.map_some']
        congr 1
        simp only [vadd, vscale, vsub, Mass.mk.injEq, Vec3.mk.injEq, and_true, true_and]
        and_intros <;> first | rfl | ring

/-- C6 witness: a constraint between two free masses 3 apart with target
distance 1 and stiffness 1/2 moves both endpoints by the relaxation
formula (the square-root stand-in returns 3). -/
theorem distance_constraint_relaxation_wit :
    (applyDistanceConstraint (fun _ => (3 : ℚ)) [cMassA, cMassB] 0 1 1 (1/2)).get? 0 =
      some { cMassA with position := vadd cMassA.position
                           (vscale ((1/2) * (((3 : ℚ) - 1) / 3) * (1/2))
                             (vsub cMassB.position cMassA.position)) } ∧
    (applyDistanceConstraint (fun _ => (3 : ℚ)) [cMassA, cMassB] 0 1 1 (1/2)).get? 1 =
      some { cMassB with position := vsub cMassB.position
                           (vscale ((1/2) * (((3 : ℚ) - 1) / 3) * (1/2))
                             (vsub cMassB.position cMassA.position)) } := by
  have h := (distance_constraint_relaxation (fun _ => (3 : ℚ)) initEngine [cMassA, cMassB]
      0 1 1 (1/2) cMassA cMassB rfl rfl (by decide)).2.2 3 rfl (by norm_num)
  rw [if_neg (by decide : ¬ (cMassA.fixed = true)),
      if_neg (by decide : ¬ (cMassB.fixed = true))] at h
  exact h

/-- C7: `applyExplosion(center, radius, forceScale)` adds to every
non-fixed mass at computed distance `r` with `0 < r < radius` a radial
force `(forceScale * (radius - r)/radius * mass / r) • (position - center)`
whose squared magnitude is `(forceScale * mass * (radius - r)/radius)^2`
(when `r` is the exact distance), and leaves unchanged every fixed mass
and every mass with `r = 0` or `r >= radius`. -/
theorem explosion_falloff (sq : ℚ → ℚ) (e : Engine) (c : Vec3) (radius fs : ℚ)
    (i : ℕ) (m : Mass) (hm : e.masses.get? i = some m) :
    (m.fixed = true → (applyExplosion sq e c radius fs).masses.get? i = some m) ∧
    (∀ r : ℚ, sq (normSq (vsub m.position c)) = r →
      (¬ (r < radius ∧ 0 < r) → (applyExplosion sq e c radius fs).masses.get? i = some m) ∧
      (m.fixed = false → 0 < r → r < radius → r * r = normSq (vsub m.position c) →
        (applyExplosion sq e c radius fs).masses.get? i =
          some { m with force := vadd m.force
                          (vscale (fs * ((radius - r) / radius) * m.mass / r)
                            (vsub m.position c)) } ∧
        normSq (vscale (fs * ((radius - r) / radius) * m.mass / r) (vsub m.position c)) =
          (fs * m.mass * ((radius - r) / radius))^2)) := by
  constructor
  · intro hf
    exact map_preserve hm (explodeMass_fixed hf)
  · intro r hr
    have hr' : sq ((m.position.x - c.x) * (m.position.x - c.x) +
        (m.position.y - c.y) * (m.position.y - c.y) +
        (m.position.z - c.z) * (m.position.z - c.z)) = r := hr
    constructor
    · intro hnr
      apply map_preserve hm
      unfold explodeMass
      split
      · rfl
      · simp only [hr']
        rw [if_neg hnr]
    · intro hfx hr0 hrr hsq
      have hsq' : r * r = (m.position.x - c.x) * (m.position.x - c.x) +
          (m.position.y - c.y) * (m.position.y - c.y) +
          (m.position.z - c.z) * (m.position.z - c.z) := hsq
      have hrne : r ≠ 0 := ne_of_gt hr0
      constructor
      · show (e.masses.map (explodeMass sq c radius fs)).get? i = _
        rw [get_map, hm]
        simp only [Option.map_some']
        congr 1
        unfold explodeMass
        rw [if_neg (by rw [hfx]; exact Bool.false_ne_true)]
        simp only [hr']
        rw [if_pos ⟨hrr, hr0⟩]
        simp only [vadd, vscale, vsub, Mass.mk.injEq, Vec3.mk.injEq, and_true, true_and]
        and_intros <;> first | rfl | ring
      · simp only [normSq, vscale, vsub]
        have hexp : (fs * ((radius - r) / radius) * m.mass / r * (m.position.x - c.x)) *
              (fs * ((radius - r) / radius) * m.mass / r * (m.position.x - c.x)) +
            (fs * ((radius - r) / radius) * m.mass / r * (m.position.y - c.y)) *
              (fs * ((radius - r) / radius) * m.mass / r * (m.position.y - c.y)) +
            (fs * ((radius - r) / radius) * m.mass / r * (m.position.z - c.z)) *
              (fs * ((radius - r) / radius) * m.mass / r * (m.position.z - c.z)) =
            (fs * ((radius - r) / radius) * m.mass / r) ^ 2 *
              ((m.position.x - c.x) * (m.position.x - c.x) +
               (m.position.y - c.y) * (m.position.y - c.y) +
               (m.position.z - c.z) * (m.position.z - c.z)) := by ring
        rw [hexp, ← hsq',
          show (fs * ((radius - r) / radius) * m.mass / r) ^ 2 * (r * r) =
            (fs * ((radius - r) / radius) * m.mass / r * r) ^ 2 from by ring,
          div_mul_cancel₀ _ hrne]
        ring

/-- C7 witness: a free mass at `(3,0,0)`, explosion at the origin with
radius 5 and scale 2: the added force and its squared magnitude follow
the linear-falloff law (square root exact at 9). -/
theorem explosion_falloff_wit :
    (applyExplosion sqNine engEx ⟨0, 0, 0⟩ 5 2).masses.get? 0 =
      some { cMassB with force := vadd cMassB.force
                           (vscale (2 * ((5 - 3) / 5) * cMassB.mass / 3)
                             (vsub cMassB.position ⟨0, 0, 0⟩)) } ∧
    normSq (vscale (2 * ((5 - 3) / 5) * cMassB.mass / 3) (vsub cMassB.position ⟨0, 0, 0⟩)) =
      (2 * cMassB.mass * ((5 - 3) / 5))^2 :=
  ((explosion_falloff sqNine engEx ⟨0, 0, 0⟩ 5 2 0 cMassB rfl).2 3
    (by norm_num [sqNine, normSq, vsub, cMassB])).2 rfl (by norm_num) (by norm_num)
    (by norm_num [normSq, vsub, cMassB])

theorem mkJointCs_distance {masses : List Mass} :
    ∀ (table : List (String × String × ℚ)), ∀ c ∈ mkJointCs masses table, isDistanceC c = true
  | [], c, hc => absurd hc (List.not_mem_nil c)
  | jc :: rest, c, hc => by
      unfold mkJointCs at hc
      rcases List.mem_append.mp hc with h | h
      · split at h
        · rw [List.mem_singleton] at h
          rw [h]
          rfl
        · exact absurd h (List.not_mem_nil c)
      · exact mkJointCs_distance rest c h

theorem mkCollisionCs_nil : ∀ (masses : List Mass) (n : ℕ),
    (∀ m ∈ masses, -50 ≤ m.position.y) → mkCollisionCs masses n = []
  | [], _, _ => rfl
  | m :: ms, n, h => by
      unfold mkCollisionCs
      rw [if_neg, mkCollisionCs_nil ms (n + 1) (fun x hx => h x (List.mem_cons_of_mem m hx))]
      · rfl
      · rintro ⟨-, hlt⟩
        exact absurd hlt (not_lt.mpr (h m (List.mem_cons_self m ms)))

theorem constraintPass_filter {sq : ℚ → ℚ} :
    ∀ (cs : List PConstraint) (ms : List Mass),
      constraintPass sq ms cs = constraintPass sq ms (cs.filter isDistanceC)
  | [], _ => rfl
  | c :: cs, ms => by
      cases c with
      | distance j1 j2 t s =>
        rw [List.filter_cons_of_pos (by rfl)]
        exact constraintPass_filter cs (applyDistanceConstraint sq ms j1 j2 t s)
      | collision j g r =>
        rw [List.filter_cons_of_neg (by simp [isDistanceC])]
        exact constraintPass_filter cs ms

/-- C4 counterexample: a topology with one non-fixed vertex at `y = -60`
stores a collision-tagged constraint object in the constraints array at
construction, and `constraintCount` reported by `getPhysicsData` counts
it. -/
theorem collision_constraint_stored_cex :
    (parsePhysicsData sqZero mdBelow initEngine).constraints =
      [PConstraint.collision 0 (-50) (7/10)] ∧
    (getPhysicsData (parsePhysicsData sqZero mdBelow initEngine)).constraintCount = 1 ∧
    isDistanceC (PConstraint.collision 0 (-50) (7/10)) = false := by
  have hstr : strIncludes "torso" "head" = false := by decide
  have hc : (parsePhysicsData sqZero mdBelow initEngine).constraints =
      [PConstraint.collision 0 (-50) (7/10)] := by
    norm_num [parsePhysicsData, mdBelow, mkMass, mkJointCs, mkCollisionCs, mkSprings,
      mapSet, hstr, initEngine]
    decide
  refine ⟨hc, ?_, rfl⟩
  show (parsePhysicsData sqZero mdBelow initEngine).constraints.length = 1
  rw [hc]
  rfl

/-- C4 (amended): collision-tagged constraint objects are stored at
construction for non-fixed vertices starting below `y = -50`; when every
vertex starts at `y >= -50` the constraints array contains only distance
constraints; in all cases the relaxation pass ignores non-distance
constraints. -/
theorem constraints_distance_only_above_ground (sq : ℚ → ℚ) (md : MeshData) (e : Engine)
    (ms : List Mass) (cs : List PConstraint)
    (h : ∀ v ∈ md.vertices, -50 ≤ v.y) :
    (∀ c ∈ (parsePhysicsData sq md e).constraints, isDistanceC c = true) ∧
    constraintPass sq ms cs = constraintPass sq ms (cs.filter isDistanceC) := by
  constructor
  · intro c hc
    have hcc : mkCollisionCs (md.vertices.map mkMass) 0 = [] := by
      apply mkCollisionCs_nil
      intro m hm
      rcases List.mem_map.mp hm with ⟨v, hv, rfl⟩
      exact h v hv
    have hc2 : c ∈ (if md.jointConstraints then mkJointCs (md.vertices.map mkMass) jointTable
        else []) ++ mkCollisionCs (md.vertices.map mkMass) 0 := hc
    rw [hcc, List.append_nil] at hc2
    split at hc2
    · exact mkJointCs_distance jointTable c hc2
    · exact absurd hc2 (List.not_mem_nil c)
  · exact constraintPass_filter cs ms

/-- C4 witness: parsing a topology whose only vertex is above ground (with
joint constraints enabled) yields only distance-tagged constraints, and a
pass over a collision-tagged constraint is a no-op equal to the pass over
the filtered list. -/
theorem constraints_distance_only_above_ground_wit :
    (∀ c ∈ (parsePhysicsData sqZero mdTop initEngine).constraints, isDistanceC c = true) ∧
    constraintPass sqZero [massFree] [PConstraint.collision 0 (-50) (7/10)] =
      constraintPass sqZero [massFree]
        ([PConstraint.collision 0 (-50) (7/10)].filter isDistanceC) :=
  constraints_distance_only_above_ground sqZero mdTop initEngine [massFree]
    [PConstraint.collision 0 (-50) (7/10)] (by norm_num [mdTop])

end Phys
